import Mathlib

/-!
Verification of the wolf-and-sheep chase simulation (`main.py`).

The embedding below translates the simulation core of the source:
  * `euclidean_distance` (source `euclidean_distance`),
  * the pursuer `Wolf` with `Wolf.move_towards` (atan2 bearing + step),
  * the prey `Sheep` with `Sheep.move_randomly` (one of four cardinal
    directions; the random draw of `random.choice` is modelled as an
    explicit `Direction` argument),
  * `closest_sheep` (linear scan keeping the strictly smallest distance
    among live sheep; the initial `min_distance = float('inf')` is
    modelled by a `none` accumulator, for which every comparison
    `distance < min_distance` holds),
  * one round of the driver loop (`runRound`: move all live sheep, select
    the closest, capture when `distance <= move_dist_wolf`, otherwise
    pursue) and the bounded driver loop itself (`runRounds`).

Python floats are modelled by real numbers.  Python mutates the selected
sheep object in place; lists being immutable here, `closest_sheep`
carries the positional index of the selected sheep (its object identity)
together with the running minimal distance, and the round updates the
list at that index.  The driver ignores the carried distance and
recomputes it, exactly as line 226 of the source does.  Line 226
dereferences the selection result before the `if closest` test, so a
`none` selection would raise `AttributeError`; `runRound` models that
crash by returning `none`.
-/

namespace WolfSheep

/-- `euclidean_distance` from the source: `sqrt((x1-x2)**2 + (y1-y2)**2)`. -/
noncomputable def euclidean_distance (x1 y1 x2 y2 : ℝ) : ℝ :=
  Real.sqrt ((x1 - x2) ^ 2 + (y1 - y2) ^ 2)

/-- Python's `math.atan2 y x`, i.e. the argument of the complex number
`x + y*i`; `math.atan2 0 0 = 0`, matching `Complex.arg 0 = 0`. -/
noncomputable def atan2 (y x : ℝ) : ℝ :=
  Complex.arg ⟨x, y⟩

/-- The pursuer: class `Wolf` (position inherited from `Animal`). -/
structure Wolf where
  x : ℝ
  y : ℝ

/-- `Wolf.move_towards`: advance by `distance` along the atan2 bearing
towards the target. -/
noncomputable def Wolf.move_towards (w : Wolf) (target_x target_y distance : ℝ) : Wolf :=
  let angle := atan2 (target_y - w.y) (target_x - w.x)
  ⟨w.x + distance * Real.cos angle, w.y + distance * Real.sin angle⟩

/-- One of the four cardinal directions drawn by `random.choice`. -/
inductive Direction where
  | north
  | south
  | east
  | west
  deriving DecidableEq

/-- The prey: class `Sheep`, position plus liveness flag
(`is_alive = True` at construction). -/
structure Sheep where
  x : ℝ
  y : ℝ
  is_alive : Bool

/-- `Sheep.__init__`: a sheep is created alive at the given position. -/
def Sheep.new (x y : ℝ) : Sheep :=
  ⟨x, y, true⟩

/-- `Sheep.move_randomly`: translate by `distance` along the drawn
direction and return that direction (the random draw is the explicit
`direction` argument). -/
noncomputable def Sheep.move_randomly (s : Sheep) (direction : Direction) (distance : ℝ) :
    Sheep × Direction :=
  match direction with
  | .north => ({ s with y := s.y + distance }, direction)
  | .south => ({ s with y := s.y - distance }, direction)
  | .east => ({ s with x := s.x + distance }, direction)
  | .west => ({ s with x := s.x - distance }, direction)

open Classical in
/-- The scan loop of `closest_sheep`, with the running positional index.
The accumulator `best` is `none` while `min_distance` is still the
initial `float('inf')` (so `distance < min_distance` is always true) and
`some (min_distance, index, closest)` afterwards; the loop-local
`distance` of the source is written out in full. -/
noncomputable def closestGo (wolf : Wolf) :
    List Sheep → ℕ → Option (ℝ × ℕ × Sheep) → Option (ℝ × ℕ × Sheep)
  | [], _, best => best
  | s :: rest, i, best =>
      if (∀ p ∈ best, euclidean_distance wolf.x wolf.y s.x s.y < p.1) ∧ s.is_alive = true then
        closestGo wolf rest (i + 1) (some (euclidean_distance wolf.x wolf.y s.x s.y, i, s))
      else
        closestGo wolf rest (i + 1) best

/-- `closest_sheep` from the source: scan the population in order, keep
the live sheep at strictly smallest distance.  The returned index stands
for the Python object identity of the returned sheep. -/
noncomputable def closest_sheep (wolf : Wolf) (sheep_list : List Sheep) :
    Option (ℝ × ℕ × Sheep) :=
  closestGo wolf sheep_list 0 none

/-- The mutable driver state: the wolf, the ordered sheep population and
the `num_alive_sheep` counter (a Python `int`). -/
structure SimState where
  wolf : Wolf
  sheep_list : List Sheep
  num_alive_sheep : ℤ

/-- The sheep-movement loop of a round (source lines 215-220): every
live sheep moves randomly, dead sheep are untouched.  `dirs i` is the
direction drawn for the sheep at index `i`. -/
noncomputable def moveSheepGo (move_dist_sheep : ℝ) (dirs : ℕ → Direction) :
    ℕ → List Sheep → List Sheep
  | _, [] => []
  | i, s :: rest =>
      (if s.is_alive then (s.move_randomly (dirs i) move_dist_sheep).1 else s) ::
        moveSheepGo move_dist_sheep dirs (i + 1) rest

/-- All live sheep move randomly, in population order. -/
noncomputable def moveSheep (move_dist_sheep : ℝ) (dirs : ℕ → Direction)
    (l : List Sheep) : List Sheep :=
  moveSheepGo move_dist_sheep dirs 0 l

open Classical in
/-- One round body (source lines 214-244): move the live sheep, select
the closest sheep, recompute the distance to it, capture it when
`distance <= move_dist_wolf` (kill flag, teleport the wolf onto it,
decrement the counter), otherwise move the wolf towards it.  A `none`
selection is dereferenced at line 226 before any test, which raises
`AttributeError`: that crash is the `none` result. -/
noncomputable def runRound (move_dist_sheep move_dist_wolf : ℝ) (dirs : ℕ → Direction)
    (st : SimState) : Option SimState :=
  let sheep1 := moveSheep move_dist_sheep dirs st.sheep_list
  match closest_sheep st.wolf sheep1 with
  | none => none
  | some (_, i, c) =>
      let distance := euclidean_distance st.wolf.x st.wolf.y c.x c.y
      if distance ≤ move_dist_wolf then
        some { wolf := ⟨c.x, c.y⟩,
               sheep_list := sheep1.set i { c with is_alive := false },
               num_alive_sheep := st.num_alive_sheep - 1 }
      else
        some { wolf := st.wolf.move_towards c.x c.y move_dist_wolf,
               sheep_list := sheep1,
               num_alive_sheep := st.num_alive_sheep }

/-- The driver loop (source lines 207-255), with `fuel` remaining loop
iterations (initially `max_rounds`, the range `1..max_rounds`).  `dirs r`
gives the direction draws of the `r`-th remaining round.  The result
carries the final state, the number of fully completed rounds, and
whether the loop exited through the `num_alive_sheep == 0` break.  A
`none` result is the `AttributeError` crash of a round body. -/
noncomputable def runRounds (move_dist_sheep move_dist_wolf : ℝ) :
    (ℕ → ℕ → Direction) → ℕ → SimState → Option (SimState × ℕ × Bool)
  | _, 0, st => some (st, 0, false)
  | dirs, n + 1, st =>
      if st.num_alive_sheep = 0 then
        some (st, 0, true)
      else
        match runRound move_dist_sheep move_dist_wolf (dirs 0) st with
        | none => none
        | some st1 =>
            (runRounds move_dist_sheep move_dist_wolf (fun r => dirs (r + 1)) n st1).map
              (fun res => (res.1, res.2.1 + 1, res.2.2))

/-- The state built by the driver before the loop (source lines
197-200): wolf at the origin, every sheep alive at its drawn position,
counter equal to the population size. -/
noncomputable def initState (positions : List (ℝ × ℝ)) : SimState :=
  { wolf := ⟨0, 0⟩,
    sheep_list := positions.map (fun p => Sheep.new p.1 p.2),
    num_alive_sheep := positions.length }

/-- The number of sheep whose liveness flag is true. -/
def aliveCount (l : List Sheep) : ℕ :=
  (l.filter (fun s => s.is_alive)).length

/-- The driver invariant: the counter equals the number of live sheep. -/
def Inv (st : SimState) : Prop :=
  st.num_alive_sheep = (aliveCount st.sheep_list : ℤ)

lemma move_randomly_is_alive (s : Sheep) (dir : Direction) (d : ℝ) :
    ((s.move_randomly dir d).1).is_alive = s.is_alive := by
  cases dir <;> rfl

lemma move_randomly_snd (s : Sheep) (dir : Direction) (d : ℝ) :
    (s.move_randomly dir d).2 = dir := by
  cases dir <;> rfl

lemma move_randomly_zero (s : Sheep) (dir : Direction) :
    (s.move_randomly dir 0).1 = s := by
  cases s; cases dir <;> simp [Sheep.move_randomly]

lemma moveSheepGo_length (m : ℝ) (dirs : ℕ → Direction) :
    ∀ (l : List Sheep) (i : ℕ), (moveSheepGo m dirs i l).length = l.length
  | [], _ => rfl
  | s :: rest, i => by
      simp [moveSheepGo, moveSheepGo_length m dirs rest (i + 1)]

lemma moveSheepGo_get? (m : ℝ) (dirs : ℕ → Direction) :
    ∀ (l : List Sheep) (i k : ℕ),
      (moveSheepGo m dirs i l).get? k =
        (l.get? k).map
          (fun s => if s.is_alive then (s.move_randomly (dirs (i + k)) m).1 else s)
  | [], _, _ => by simp [moveSheepGo]
  | s :: rest, i, 0 => by simp [moveSheepGo]
  | s :: rest, i, k + 1 => by
      have ih := moveSheepGo_get? m dirs rest (i + 1) k
      have harith : i + 1 + k = i + (k + 1) := by omega
      simpa [moveSheepGo, harith] using ih

lemma aliveCount_cons (s : Sheep) (l : List Sheep) :
    aliveCount (s :: l) = (if s.is_alive then 1 else 0) + aliveCount l := by
  cases h : s.is_alive <;> simp [aliveCount, List.filter_cons, h, Nat.add_comm]

lemma aliveCount_eq_zero_iff (l : List Sheep) :
    aliveCount l = 0 ↔ ∀ s ∈ l, s.is_alive = false := by
  simp [aliveCount, List.length_eq_zero, List.filter_eq_nil_iff]

lemma aliveCount_moveSheepGo (m : ℝ) (dirs : ℕ → Direction) :
    ∀ (l : List Sheep) (i : ℕ), aliveCount (moveSheepGo m dirs i l) = aliveCount l
  | [], _ => rfl
  | s :: rest, i => by
      have ih := aliveCount_moveSheepGo m dirs rest (i + 1)
      cases h : s.is_alive <;>
        simp [moveSheepGo, aliveCount_cons, h, move_randomly_is_alive, ih]

lemma aliveCount_moveSheep (m : ℝ) (dirs : ℕ → Direction) (l : List Sheep) :
    aliveCount (moveSheep m dirs l) = aliveCount l :=
  aliveCount_moveSheepGo m dirs l 0

lemma aliveCount_set_dead :
    ∀ (l : List Sheep) (i : ℕ) (c : Sheep), l.get? i = some c → c.is_alive = true →
      aliveCount (l.set i { c with is_alive := false }) + 1 = aliveCount l
  | [], i, c, h, _ => by simp at h
  | s :: rest, 0, c, h, hc => by
      simp only [List.get?] at h
      injection h with h
      subst h
      simp [List.set, aliveCount_cons, hc, Nat.add_comm]
  | s :: rest, i + 1, c, h, hc => by
      simp only [List.get?] at h
      have ih := aliveCount_set_dead rest i c h hc
      cases hs : s.is_alive <;> simp [List.set, aliveCount_cons, hs] <;> omega

lemma moveSheepGo_zero_dist (dirs : ℕ → Direction) :
    ∀ (l : List Sheep) (i : ℕ), moveSheepGo 0 dirs i l = l
  | [], _ => rfl
  | s :: rest, i => by
      simp [moveSheepGo, move_randomly_zero, moveSheepGo_zero_dist dirs rest (i + 1)]

lemma closestGo_nil (w : Wolf) (i0 : ℕ) (acc : Option (ℝ × ℕ × Sheep)) :
    closestGo w [] i0 acc = acc := by
  simp [closestGo]

lemma closestGo_cons_pos (w : Wolf) (s : Sheep) (rest : List Sheep) (i0 : ℕ)
    (acc : Option (ℝ × ℕ × Sheep))
    (h : (∀ p ∈ acc, euclidean_distance w.x w.y s.x s.y < p.1) ∧ s.is_alive = true) :
    closestGo w (s :: rest) i0 acc =
      closestGo w rest (i0 + 1) (some (euclidean_distance w.x w.y s.x s.y, i0, s)) := by
  simp only [closestGo]
  rw [if_pos h]

lemma closestGo_cons_neg (w : Wolf) (s : Sheep) (rest : List Sheep) (i0 : ℕ)
    (acc : Option (ℝ × ℕ × Sheep))
    (h : ¬ ((∀ p ∈ acc, euclidean_distance w.x w.y s.x s.y < p.1) ∧ s.is_alive = true)) :
    closestGo w (s :: rest) i0 acc = closestGo w rest (i0 + 1) acc := by
  simp only [closestGo]
  rw [if_neg h]

/-- Full characterization of the scan loop: starting from a sound
accumulator, the result is `none` exactly when the accumulator was
`none` and no scanned sheep is alive; a `some` result is a live sheep of
the scanned range (or the kept accumulator), its distance beats the
accumulator (strictly unless it is the accumulator), beats every earlier
live sheep strictly and every later live sheep weakly. -/
lemma closestGo_spec (w : Wolf) :
    ∀ (rest : List Sheep) (i0 : ℕ) (acc : Option (ℝ × ℕ × Sheep)),
      (∀ q, acc = some q → q.1 = euclidean_distance w.x w.y q.2.2.x q.2.2.y ∧
        q.2.2.is_alive = true ∧ q.2.1 < i0) →
      ((closestGo w rest i0 acc = none ↔ acc = none ∧ ∀ s ∈ rest, s.is_alive = false) ∧
       (∀ d i c, closestGo w rest i0 acc = some (d, i, c) →
         d = euclidean_distance w.x w.y c.x c.y ∧ c.is_alive = true ∧
         (some (d, i, c) = acc ∨ (i0 ≤ i ∧ rest.get? (i - i0) = some c)) ∧
         (∀ q, acc = some q → d ≤ q.1 ∧ (some (d, i, c) ≠ acc → d < q.1)) ∧
         (∀ k s, rest.get? k = some s → s.is_alive = true →
           (i0 + k < i → d < euclidean_distance w.x w.y s.x s.y) ∧
           (i ≤ i0 + k → d ≤ euclidean_distance w.x w.y s.x s.y)))) := by
  intro rest
  induction rest with
  | nil =>
      intro i0 acc Hacc
      constructor
      · rw [closestGo_nil]
        constructor
        · intro h
          exact ⟨h, by simp⟩
        · rintro ⟨h, -⟩
          exact h
      · intro d i c hres
        rw [closestGo_nil] at hres
        obtain ⟨hd, hal, -⟩ := Hacc (d, i, c) hres
        refine ⟨hd, hal, Or.inl hres.symm, ?_, ?_⟩
        · intro q hq
          rw [hres] at hq
          injection hq with hq
          subst hq
          exact ⟨le_refl _, fun hne => absurd hres.symm hne⟩
        · intro k t hk
          simp at hk
  | cons s rest ih =>
      intro i0 acc Hacc
      by_cases hcond :
          (∀ p ∈ acc, euclidean_distance w.x w.y s.x s.y < p.1) ∧ s.is_alive = true
      · -- the scanned sheep strictly improves on the running minimum and is alive
        have hstep := closestGo_cons_pos w s rest i0 acc hcond
        have Hacc' : ∀ q, (some (euclidean_distance w.x w.y s.x s.y, i0, s) : Option _) = some q →
            q.1 = euclidean_distance w.x w.y q.2.2.x q.2.2.y ∧
            q.2.2.is_alive = true ∧ q.2.1 < i0 + 1 := by
          intro q hq
          injection hq with hq
          subst hq
          exact ⟨rfl, hcond.2, Nat.lt_succ_self i0⟩
        obtain ⟨IH1, IH2⟩ := ih (i0 + 1) (some (euclidean_distance w.x w.y s.x s.y, i0, s)) Hacc'
        constructor
        · rw [hstep]
          constructor
          · intro h
            rw [IH1] at h
            simp at h
          · rintro ⟨-, hdead⟩
            have hsf := hdead s (List.mem_cons_self s rest)
            rw [hcond.2] at hsf
            simp at hsf
        · intro d i c hres
          rw [hstep] at hres
          obtain ⟨hd, hal, hsrc, haccP, hrestP⟩ := IH2 d i c hres
          have hacc0 := haccP (euclidean_distance w.x w.y s.x s.y, i0, s) rfl
          refine ⟨hd, hal, ?_, ?_, ?_⟩
          · rcases hsrc with heq | ⟨hge, hget⟩
            · injection heq with heq
              refine Or.inr ⟨?_, ?_⟩
              · have : i = i0 := congrArg (fun p => p.2.1) heq
                omega
              · have hii : i = i0 := congrArg (fun p => p.2.1) heq
                have hcc : c = s := congrArg (fun p => p.2.2) heq
                subst hii
                subst hcc
                simp
            · refine Or.inr ⟨by omega, ?_⟩
              have harith : i - i0 = (i - (i0 + 1)) + 1 := by omega
              rw [harith]
              simpa using hget
          · intro q hq
            have hmem : q ∈ acc := by
              rw [hq]
              rfl
            have hlt := hcond.1 q hmem
            exact ⟨le_trans hacc0.1 (le_of_lt hlt), fun _ => lt_of_le_of_lt hacc0.1 hlt⟩
          · intro k t hk ht
            cases k with
            | zero =>
                simp only [List.get?] at hk
                injection hk with hk
                subst hk
                constructor
                · intro hii
                  refine hacc0.2 ?_
                  intro hcontra
                  injection hcontra with hcontra
                  have : i = i0 := congrArg (fun p => p.2.1) hcontra
                  omega
                · intro _
                  exact hacc0.1
            | succ k =>
                simp only [List.get?] at hk
                have hP := hrestP k t hk ht
                constructor
                · intro h
                  exact hP.1 (by omega)
                · intro h
                  exact hP.2 (by omega)
      · -- the scanned sheep is rejected (dead, or no strict improvement)
        have hstep := closestGo_cons_neg w s rest i0 acc hcond
        have Hacc' : ∀ q, acc = some q →
            q.1 = euclidean_distance w.x w.y q.2.2.x q.2.2.y ∧
            q.2.2.is_alive = true ∧ q.2.1 < i0 + 1 := by
          intro q hq
          obtain ⟨h1, h2, h3⟩ := Hacc q hq
          exact ⟨h1, h2, by omega⟩
        obtain ⟨IH1, IH2⟩ := ih (i0 + 1) acc Hacc'
        constructor
        · rw [hstep, IH1]
          constructor
          · rintro ⟨hnone, hdead⟩
            refine ⟨hnone, ?_⟩
            intro t htmem
            rcases List.mem_cons.mp htmem with rfl | hmem
            · by_contra hst
              simp only [Bool.not_eq_false] at hst
              apply hcond
              refine ⟨?_, hst⟩
              intro p hp
              rw [Option.mem_def, hnone] at hp
              simp at hp
            · exact hdead t hmem
          · rintro ⟨hnone, hdead⟩
            exact ⟨hnone, fun t hmem => hdead t (List.mem_cons_of_mem s hmem)⟩
        · intro d i c hres
          rw [hstep] at hres
          obtain ⟨hd, hal, hsrc, haccP, hrestP⟩ := IH2 d i c hres
          refine ⟨hd, hal, ?_, haccP, ?_⟩
          · rcases hsrc with heq | ⟨hge, hget⟩
            · exact Or.inl heq
            · refine Or.inr ⟨by omega, ?_⟩
              have harith : i - i0 = (i - (i0 + 1)) + 1 := by omega
              rw [harith]
              simpa using hget
          · intro k t hk ht
            cases k with
            | zero =>
                simp only [List.get?] at hk
                injection hk with hk
                subst hk
                have hnotall : ¬ (∀ p ∈ acc, euclidean_distance w.x w.y s.x s.y < p.1) := by
                  intro hall
                  exact hcond ⟨hall, ht⟩
                cases hacc : acc with
                | none =>
                    exfalso
                    apply hnotall
                    intro p hp
                    rw [Option.mem_def, hacc] at hp
                    simp at hp
                | some q =>
                    have hqle : q.1 ≤ euclidean_distance w.x w.y s.x s.y := by
                      by_contra hql
                      simp only [not_le] at hql
                      apply hnotall
                      intro p hp
                      rw [Option.mem_def, hacc] at hp
                      injection hp with hp
                      subst hp
                      exact hql
                    obtain ⟨-, -, hq3⟩ := Hacc q hacc
                    rcases hsrc with heq | ⟨hge, -⟩
                    · rw [hacc] at heq
                      injection heq with heq
                      have hii : i = q.2.1 := congrArg (fun p => p.2.1) heq
                      have hdd : d = q.1 := congrArg (fun p => p.1) heq
                      constructor
                      · intro hcontra
                        omega
                      · intro _
                        rw [hdd]
                        exact hqle
                    · have hne : (some (d, i, c) : Option _) ≠ acc := by
                        rw [hacc]
                        intro hcontra
                        injection hcontra with hcontra
                        have : i = q.2.1 := congrArg (fun p => p.2.1) hcontra
                        omega
                      have hdlt : d < q.1 := (haccP q hacc).2 hne
                      have hdt : d < euclidean_distance w.x w.y s.x s.y :=
                        lt_of_lt_of_le hdlt hqle
                      exact ⟨fun _ => hdt, fun _ => le_of_lt hdt⟩
            | succ k =>
                simp only [List.get?] at hk
                have hP := hrestP k t hk ht
                constructor
                · intro h
                  exact hP.1 (by omega)
                · intro h
                  exact hP.2 (by omega)

lemma closest_sheep_none_iff (w : Wolf) (l : List Sheep) :
    closest_sheep w l = none ↔ ∀ s ∈ l, s.is_alive = false := by
  have h := (closestGo_spec w l 0 none (by intro q hq; simp at hq)).1
  simpa [closest_sheep] using h

lemma closest_sheep_some_spec (w : Wolf) (l : List Sheep) (d : ℝ) (i : ℕ) (c : Sheep)
    (h : closest_sheep w l = some (d, i, c)) :
    d = euclidean_distance w.x w.y c.x c.y ∧ c.is_alive = true ∧ l.get? i = some c ∧
      (∀ k s, l.get? k = some s → s.is_alive = true →
        (k < i → d < euclidean_distance w.x w.y s.x s.y) ∧
        d ≤ euclidean_distance w.x w.y s.x s.y) := by
  have hs := (closestGo_spec w l 0 none (by intro q hq; simp at hq)).2 d i c h
  obtain ⟨hd, hal, hsrc, -, hrest⟩ := hs
  rcases hsrc with heq | ⟨-, hget⟩
  · simp at heq
  · refine ⟨hd, hal, by simpa using hget, ?_⟩
    intro k s hk hsal
    have hks := hrest k s hk hsal
    constructor
    · intro hki
      exact hks.1 (by omega)
    · rcases lt_or_ge k i with hki | hki
      · exact le_of_lt (hks.1 (by omega))
      · exact hks.2 (by omega)

lemma euclidean_distance_nonneg (x1 y1 x2 y2 : ℝ) :
    0 ≤ euclidean_distance x1 y1 x2 y2 :=
  Real.sqrt_nonneg _

lemma euclidean_distance_sq (x1 y1 x2 y2 : ℝ) :
    euclidean_distance x1 y1 x2 y2 ^ 2 = (x1 - x2) ^ 2 + (y1 - y2) ^ 2 :=
  Real.sq_sqrt (by positivity)

lemma euclidean_distance_eq_zero_iff (x1 y1 x2 y2 : ℝ) :
    euclidean_distance x1 y1 x2 y2 = 0 ↔ x1 = x2 ∧ y1 = y2 := by
  rw [euclidean_distance, Real.sqrt_eq_zero (by positivity)]
  constructor
  · intro h
    have h1 : (x1 - x2) ^ 2 = 0 := by nlinarith [sq_nonneg (x1 - x2), sq_nonneg (y1 - y2)]
    have h2 : (y1 - y2) ^ 2 = 0 := by nlinarith [sq_nonneg (x1 - x2), sq_nonneg (y1 - y2)]
    constructor
    · have := pow_eq_zero_iff (n := 2) (by norm_num) |>.mp h1
      linarith
    · have := pow_eq_zero_iff (n := 2) (by norm_num) |>.mp h2
      linarith
  · rintro ⟨rfl, rfl⟩
    ring_nf

lemma atan2_zero_zero : atan2 0 0 = 0 := by
  have h0 : (⟨0, 0⟩ : ℂ) = 0 := by
    apply Complex.ext <;> simp
  rw [atan2, h0, Complex.arg_zero]

lemma move_towards_x (w : Wolf) (tx ty step : ℝ) :
    (w.move_towards tx ty step).x = w.x + step * Real.cos (atan2 (ty - w.y) (tx - w.x)) :=
  rfl

lemma move_towards_y (w : Wolf) (tx ty step : ℝ) :
    (w.move_towards tx ty step).y = w.y + step * Real.sin (atan2 (ty - w.y) (tx - w.x)) :=
  rfl

/-- Moving by `step` along any bearing displaces the wolf by exactly
`step`. -/
lemma move_towards_displacement (w : Wolf) (tx ty step : ℝ) (hs : 0 ≤ step) :
    euclidean_distance w.x w.y (w.move_towards tx ty step).x (w.move_towards tx ty step).y
      = step := by
  rw [move_towards_x, move_towards_y, euclidean_distance]
  have hpyth := Real.sin_sq_add_cos_sq (atan2 (ty - w.y) (tx - w.x))
  have hkey : (w.x - (w.x + step * Real.cos (atan2 (ty - w.y) (tx - w.x)))) ^ 2 +
      (w.y - (w.y + step * Real.sin (atan2 (ty - w.y) (tx - w.x)))) ^ 2 = step ^ 2 := by
    linear_combination step ^ 2 * hpyth
  rw [hkey, Real.sqrt_sq hs]

/-- The cosine and sine of the atan2 bearing are the normalized direction
components, provided source and target differ. -/
lemma cos_sin_atan2 (dy dx : ℝ) (h : ¬ (dx = 0 ∧ dy = 0)) :
    Real.cos (atan2 dy dx) = dx / Real.sqrt (dx ^ 2 + dy ^ 2) ∧
    Real.sin (atan2 dy dx) = dy / Real.sqrt (dx ^ 2 + dy ^ 2) := by
  have hz : (⟨dx, dy⟩ : ℂ) ≠ 0 := by
    intro hzero
    apply h
    rw [Complex.ext_iff] at hzero
    simpa using hzero
  have habs : Complex.abs ⟨dx, dy⟩ = Real.sqrt (dx ^ 2 + dy ^ 2) := by
    rw [Complex.abs_apply, Complex.normSq_mk]
    congr 1
    ring
  constructor
  · rw [atan2, Complex.cos_arg hz, habs]
  · rw [atan2, Complex.sin_arg, habs]

/-- After a pursuit step, the distance to the (fixed) target is
`|old distance - step|`. -/
lemma move_towards_dist_to_target (w : Wolf) (tx ty step : ℝ)
    (hne : euclidean_distance w.x w.y tx ty ≠ 0) :
    euclidean_distance (w.move_towards tx ty step).x (w.move_towards tx ty step).y tx ty
      = |euclidean_distance w.x w.y tx ty - step| := by
  have hd0 : ¬ ((tx - w.x) = 0 ∧ (ty - w.y) = 0) := by
    rintro ⟨h1, h2⟩
    apply hne
    rw [euclidean_distance_eq_zero_iff]
    constructor <;> linarith
  obtain ⟨hcos, hsin⟩ := cos_sin_atan2 (ty - w.y) (tx - w.x) hd0
  have hDeq : Real.sqrt ((tx - w.x) ^ 2 + (ty - w.y) ^ 2)
      = euclidean_distance w.x w.y tx ty := by
    rw [euclidean_distance]
    congr 1
    ring
  rw [hDeq] at hcos hsin
  set D := euclidean_distance w.x w.y tx ty with hDdef
  have hD2 : D ^ 2 = (w.x - tx) ^ 2 + (w.y - ty) ^ 2 := euclidean_distance_sq _ _ _ _
  have hx : (w.move_towards tx ty step).x - tx = (w.x - tx) * (D - step) / D := by
    rw [move_towards_x, hcos]
    field_simp
    ring
  have hy : (w.move_towards tx ty step).y - ty = (w.y - ty) * (D - step) / D := by
    rw [move_towards_y, hsin]
    field_simp
    ring
  rw [euclidean_distance]
  have hsq : ((w.move_towards tx ty step).x - tx) ^ 2 +
      ((w.move_towards tx ty step).y - ty) ^ 2 = (D - step) ^ 2 := by
    rw [hx, hy, div_pow, div_pow, div_add_div_same, mul_pow, mul_pow]
    have hnum : (w.x - tx) ^ 2 * (D - step) ^ 2 + (w.y - ty) ^ 2 * (D - step) ^ 2
        = (D - step) ^ 2 * D ^ 2 := by
      linear_combination (-(D - step) ^ 2) * hD2
    rw [hnum, mul_div_assoc, div_self (pow_ne_zero 2 hne), mul_one]
  rw [hsq, Real.sqrt_sq_eq_abs]

lemma runRound_crash (ms mw : ℝ) (dirs : ℕ → Direction) (st : SimState)
    (h : closest_sheep st.wolf (moveSheep ms dirs st.sheep_list) = none) :
    runRound ms mw dirs st = none := by
  simp only [runRound, h]

lemma runRound_capture (ms mw : ℝ) (dirs : ℕ → Direction) (st : SimState)
    (d : ℝ) (i : ℕ) (c : Sheep)
    (hsel : closest_sheep st.wolf (moveSheep ms dirs st.sheep_list) = some (d, i, c))
    (hcap : euclidean_distance st.wolf.x st.wolf.y c.x c.y ≤ mw) :
    runRound ms mw dirs st =
      some { wolf := ⟨c.x, c.y⟩,
             sheep_list := (moveSheep ms dirs st.sheep_list).set i { c with is_alive := false },
             num_alive_sheep := st.num_alive_sheep - 1 } := by
  simp only [runRound, hsel]
  rw [if_pos hcap]

lemma runRound_pursue (ms mw : ℝ) (dirs : ℕ → Direction) (st : SimState)
    (d : ℝ) (i : ℕ) (c : Sheep)
    (hsel : closest_sheep st.wolf (moveSheep ms dirs st.sheep_list) = some (d, i, c))
    (hcap : ¬ euclidean_distance st.wolf.x st.wolf.y c.x c.y ≤ mw) :
    runRound ms mw dirs st =
      some { wolf := st.wolf.move_towards c.x c.y mw,
             sheep_list := moveSheep ms dirs st.sheep_list,
             num_alive_sheep := st.num_alive_sheep } := by
  simp only [runRound, hsel]
  rw [if_neg hcap]

/-- Inversion of a successful round: a sheep was selected, and the round
was a capture or a pursuit. -/
lemma runRound_inversion (ms mw : ℝ) (dirs : ℕ → Direction) (st st' : SimState)
    (h : runRound ms mw dirs st = some st') :
    ∃ d i c, closest_sheep st.wolf (moveSheep ms dirs st.sheep_list) = some (d, i, c) ∧
      ((euclidean_distance st.wolf.x st.wolf.y c.x c.y ≤ mw ∧
        st' = { wolf := ⟨c.x, c.y⟩,
                sheep_list := (moveSheep ms dirs st.sheep_list).set i { c with is_alive := false },
                num_alive_sheep := st.num_alive_sheep - 1 }) ∨
       (¬ euclidean_distance st.wolf.x st.wolf.y c.x c.y ≤ mw ∧
        st' = { wolf := st.wolf.move_towards c.x c.y mw,
                sheep_list := moveSheep ms dirs st.sheep_list,
                num_alive_sheep := st.num_alive_sheep })) := by
  cases hsel : closest_sheep st.wolf (moveSheep ms dirs st.sheep_list) with
  | none =>
      rw [runRound_crash ms mw dirs st hsel] at h
      exact absurd h (by simp)
  | some p =>
      obtain ⟨d, i, c⟩ := p
      by_cases hcap : euclidean_distance st.wolf.x st.wolf.y c.x c.y ≤ mw
      · rw [runRound_capture ms mw dirs st d i c hsel hcap] at h
        injection h with h
        exact ⟨d, i, c, rfl, Or.inl ⟨hcap, h.symm⟩⟩
      · rw [runRound_pursue ms mw dirs st d i c hsel hcap] at h
        injection h with h
        exact ⟨d, i, c, rfl, Or.inr ⟨hcap, h.symm⟩⟩

lemma exists_selection (ms : ℝ) (dirs : ℕ → Direction) (st : SimState)
    (halive : aliveCount st.sheep_list ≠ 0) :
    ∃ d i c, closest_sheep st.wolf (moveSheep ms dirs st.sheep_list) = some (d, i, c) := by
  have h1 : aliveCount (moveSheep ms dirs st.sheep_list) ≠ 0 := by
    rw [aliveCount_moveSheep]
    exact halive
  cases hsel : closest_sheep st.wolf (moveSheep ms dirs st.sheep_list) with
  | none =>
      exfalso
      apply h1
      rw [aliveCount_eq_zero_iff]
      exact (closest_sheep_none_iff _ _).mp hsel
  | some p =>
      exact ⟨p.1, p.2.1, p.2.2, rfl⟩

lemma runRound_isSome_of_alive (ms mw : ℝ) (dirs : ℕ → Direction) (st : SimState)
    (halive : aliveCount st.sheep_list ≠ 0) :
    ∃ st', runRound ms mw dirs st = some st' := by
  obtain ⟨d, i, c, hsel⟩ := exists_selection ms dirs st halive
  by_cases hcap : euclidean_distance st.wolf.x st.wolf.y c.x c.y ≤ mw
  · exact ⟨_, runRound_capture ms mw dirs st d i c hsel hcap⟩
  · exact ⟨_, runRound_pursue ms mw dirs st d i c hsel hcap⟩

/-- A successful round preserves the counter invariant, and the counter
drops by one on a capture and is unchanged otherwise. -/
lemma runRound_inv (ms mw : ℝ) (dirs : ℕ → Direction) (st st' : SimState)
    (hinv : Inv st) (h : runRound ms mw dirs st = some st') :
    Inv st' ∧ (st'.num_alive_sheep = st.num_alive_sheep - 1 ∨
      st'.num_alive_sheep = st.num_alive_sheep) := by
  obtain ⟨d, i, c, hsel, hcases⟩ := runRound_inversion ms mw dirs st st' h
  obtain ⟨-, hal, hget, -⟩ := closest_sheep_some_spec _ _ _ _ _ hsel
  rcases hcases with ⟨-, rfl⟩ | ⟨-, rfl⟩
  · have hcount := aliveCount_set_dead (moveSheep ms dirs st.sheep_list) i c hget hal
    have hmv : aliveCount (moveSheep ms dirs st.sheep_list) = aliveCount st.sheep_list :=
      aliveCount_moveSheep ms dirs st.sheep_list
    rw [Inv] at hinv ⊢
    constructor
    · simp only []
      omega
    · left
      rfl
  · have hmv : aliveCount (moveSheep ms dirs st.sheep_list) = aliveCount st.sheep_list :=
      aliveCount_moveSheep ms dirs st.sheep_list
    rw [Inv] at hinv ⊢
    constructor
    · simp only []
      omega
    · right
      rfl

/-- A dead sheep stays dead, at its index, across a successful round. -/
lemma runRound_dead_stays (ms mw : ℝ) (dirs : ℕ → Direction) (st st' : SimState)
    (h : runRound ms mw dirs st = some st') (j : ℕ) (s : Sheep)
    (hj : st.sheep_list.get? j = some s) (hdead : s.is_alive = false) :
    ∃ s', st'.sheep_list.get? j = some s' ∧ s'.is_alive = false := by
  obtain ⟨d, i, c, hsel, hcases⟩ := runRound_inversion ms mw dirs st st' h
  have hj1 : (moveSheep ms dirs st.sheep_list).get? j = some s := by
    rw [moveSheep, moveSheepGo_get?, hj]
    simp [hdead]
  rcases hcases with ⟨-, rfl⟩ | ⟨-, rfl⟩
  · by_cases hij : j = i
    · subst hij
      have hlen : j < (moveSheep ms dirs st.sheep_list).length :=
        List.get?_eq_some.mp hj1 |>.choose
      refine ⟨{ c with is_alive := false }, ?_, rfl⟩
      simp only []
      rw [List.get?_set_eq_of_lt _ hlen]
    · refine ⟨s, ?_, hdead⟩
      simp only []
      rw [List.get?_set_ne _ _ (fun hcontra => hij hcontra.symm)]
      exact hj1
  · exact ⟨s, hj1, hdead⟩

/-- With prey step distance 0, a successful round does not change any
sheep position (only possibly a liveness flag). -/
lemma runRound_zero_dist_positions (mw : ℝ) (dirs : ℕ → Direction) (st st' : SimState)
    (h : runRound 0 mw dirs st = some st') (j : ℕ) (s : Sheep)
    (hj : st.sheep_list.get? j = some s) :
    ∃ s', st'.sheep_list.get? j = some s' ∧ s'.x = s.x ∧ s'.y = s.y := by
  obtain ⟨d, i, c, hsel, hcases⟩ := runRound_inversion 0 mw dirs st st' h
  have hmv : moveSheep 0 dirs st.sheep_list = st.sheep_list :=
    moveSheepGo_zero_dist dirs st.sheep_list 0
  rw [hmv] at hsel
  obtain ⟨-, -, hget, -⟩ := closest_sheep_some_spec _ _ _ _ _ hsel
  rcases hcases with ⟨-, rfl⟩ | ⟨-, rfl⟩
  · by_cases hij : j = i
    · subst hij
      have hsc : s = c := by
        rw [hj] at hget
        injection hget
      subst hsc
      have hlen : j < st.sheep_list.length :=
        List.get?_eq_some.mp hj |>.choose
      refine ⟨{ s with is_alive := false }, ?_, rfl, rfl⟩
      simp only [hmv]
      rw [List.get?_set_eq_of_lt _ hlen]
    · refine ⟨s, ?_, rfl, rfl⟩
      simp only [hmv]
      rw [List.get?_set_ne _ _ (fun hcontra => hij hcontra.symm)]
      exact hj
  · exact ⟨s, by simp only [hmv]; exact hj, rfl, rfl⟩

lemma runRounds_zero (ms mw : ℝ) (dirs : ℕ → ℕ → Direction) (st : SimState) :
    runRounds ms mw dirs 0 st = some (st, 0, false) :=
  rfl

lemma runRounds_succ_break (ms mw : ℝ) (dirs : ℕ → ℕ → Direction) (n : ℕ) (st : SimState)
    (h : st.num_alive_sheep = 0) :
    runRounds ms mw dirs (n + 1) st = some (st, 0, true) := by
  simp only [runRounds]
  rw [if_pos h]

lemma runRounds_succ_run (ms mw : ℝ) (dirs : ℕ → ℕ → Direction) (n : ℕ) (st st1 : SimState)
    (h : ¬ st.num_alive_sheep = 0) (hr : runRound ms mw (dirs 0) st = some st1) :
    runRounds ms mw dirs (n + 1) st =
      (runRounds ms mw (fun r => dirs (r + 1)) n st1).map
        (fun res => (res.1, res.2.1 + 1, res.2.2)) := by
  simp only [runRounds]
  rw [if_neg h, hr]

lemma runRounds_succ_crash (ms mw : ℝ) (dirs : ℕ → ℕ → Direction) (n : ℕ) (st : SimState)
    (h : ¬ st.num_alive_sheep = 0) (hr : runRound ms mw (dirs 0) st = none) :
    runRounds ms mw dirs (n + 1) st = none := by
  simp only [runRounds]
  rw [if_neg h, hr]

/-- The whole-run characterization from any state satisfying the counter
invariant: the loop never crashes, the invariant holds at the end, at
most `fuel` rounds complete, early exit (the break) implies extinction,
and fewer-than-`fuel` completed rounds happens exactly on an early
exit. -/
lemma runRounds_spec (ms mw : ℝ) :
    ∀ (fuel : ℕ) (dirs : ℕ → ℕ → Direction) (st : SimState), Inv st →
      ∃ fst k e, runRounds ms mw dirs fuel st = some (fst, k, e) ∧
        Inv fst ∧ k ≤ fuel ∧ (e = true → fst.num_alive_sheep = 0) ∧
        (k < fuel → e = true) ∧ (e = true → k < fuel) := by
  intro fuel
  induction fuel with
  | zero =>
      intro dirs st hinv
      exact ⟨st, 0, false, runRounds_zero ms mw dirs st, hinv, le_refl 0,
        by simp, by omega, by simp⟩
  | succ n ihf =>
      intro dirs st hinv
      by_cases h0 : st.num_alive_sheep = 0
      · exact ⟨st, 0, true, runRounds_succ_break ms mw dirs n st h0, hinv,
          by omega, fun _ => h0, fun _ => rfl, fun _ => by omega⟩
      · have halive : aliveCount st.sheep_list ≠ 0 := by
          intro hc
          apply h0
          rw [hinv, hc]
          rfl
        obtain ⟨st1, hst1⟩ := runRound_isSome_of_alive ms mw (dirs 0) st halive
        have hinv1 := (runRound_inv ms mw (dirs 0) st st1 hinv hst1).1
        obtain ⟨fst, k, e, heq, hfinv, hk, he0, hke, hek⟩ :=
          ihf (fun r => dirs (r + 1)) st1 hinv1
        refine ⟨fst, k + 1, e, ?_, hfinv, by omega, he0, ?_, ?_⟩
        · rw [runRounds_succ_run ms mw dirs n st st1 h0 hst1, heq]
          rfl
        · intro hlt
          exact hke (by omega)
        · intro het
          have := hek het
          omega

/-- A dead sheep stays dead, at its index, for the rest of the run. -/
lemma runRounds_dead_stays (ms mw : ℝ) :
    ∀ (fuel : ℕ) (dirs : ℕ → ℕ → Direction) (st fst : SimState) (k : ℕ) (e : Bool),
      runRounds ms mw dirs fuel st = some (fst, k, e) →
      ∀ j s, st.sheep_list.get? j = some s → s.is_alive = false →
        ∃ s', fst.sheep_list.get? j = some s' ∧ s'.is_alive = false := by
  intro fuel
  induction fuel with
  | zero =>
      intro dirs st fst k e h j s hj hdead
      rw [runRounds_zero] at h
      injection h with h
      have hst : st = fst := congrArg (fun r => r.1) h
      subst hst
      exact ⟨s, hj, hdead⟩
  | succ n ihf =>
      intro dirs st fst k e h j s hj hdead
      by_cases h0 : st.num_alive_sheep = 0
      · rw [runRounds_succ_break ms mw dirs n st h0] at h
        injection h with h
        have hst : st = fst := congrArg (fun r => r.1) h
        subst hst
        exact ⟨s, hj, hdead⟩
      · cases hrr : runRound ms mw (dirs 0) st with
        | none =>
            rw [runRounds_succ_crash ms mw dirs n st h0 hrr] at h
            exact absurd h (by simp)
        | some st1 =>
            rw [runRounds_succ_run ms mw dirs n st st1 h0 hrr] at h
            cases hrec : runRounds ms mw (fun r => dirs (r + 1)) n st1 with
            | none =>
                rw [hrec] at h
                exact absurd h (by simp)
            | some res =>
                rw [hrec] at h
                injection h with h
                have hfst : res.1 = fst := congrArg (fun r => r.1) h
                obtain ⟨s1, hs1, hs1dead⟩ := runRound_dead_stays ms mw (dirs 0) st st1 hrr j s hj hdead
                obtain ⟨s', hs', hs'dead⟩ :=
                  ihf (fun r => dirs (r + 1)) st1 res.1 res.2.1 res.2.2 (by rw [hrec]) j s1 hs1 hs1dead
                exact ⟨s', by rw [← hfst]; exact hs', hs'dead⟩

/-- With prey step distance 0, no sheep position ever changes across the
whole run. -/
lemma runRounds_zero_dist_positions (mw : ℝ) :
    ∀ (fuel : ℕ) (dirs : ℕ → ℕ → Direction) (st fst : SimState) (k : ℕ) (e : Bool),
      runRounds 0 mw dirs fuel st = some (fst, k, e) →
      ∀ j s, st.sheep_list.get? j = some s →
        ∃ s', fst.sheep_list.get? j = some s' ∧ s'.x = s.x ∧ s'.y = s.y := by
  intro fuel
  induction fuel with
  | zero =>
      intro dirs st fst k e h j s hj
      rw [runRounds_zero] at h
      injection h with h
      have hst : st = fst := congrArg (fun r => r.1) h
      subst hst
      exact ⟨s, hj, rfl, rfl⟩
  | succ n ihf =>
      intro dirs st fst k e h j s hj
      by_cases h0 : st.num_alive_sheep = 0
      · rw [runRounds_succ_break 0 mw dirs n st h0] at h
        injection h with h
        have hst : st = fst := congrArg (fun r => r.1) h
        subst hst
        exact ⟨s, hj, rfl, rfl⟩
      · cases hrr : runRound 0 mw (dirs 0) st with
        | none =>
            rw [runRounds_succ_crash 0 mw dirs n st h0 hrr] at h
            exact absurd h (by simp)
        | some st1 =>
            rw [runRounds_succ_run 0 mw dirs n st st1 h0 hrr] at h
            cases hrec : runRounds 0 mw (fun r => dirs (r + 1)) n st1 with
            | none =>
                rw [hrec] at h
                exact absurd h (by simp)
            | some res =>
                rw [hrec] at h
                injection h with h
                have hfst : res.1 = fst := congrArg (fun r => r.1) h
                obtain ⟨s1, hs1, hx1, hy1⟩ :=
                  runRound_zero_dist_positions mw (dirs 0) st st1 hrr j s hj
                obtain ⟨s', hs', hx', hy'⟩ :=
                  ihf (fun r => dirs (r + 1)) st1 res.1 res.2.1 res.2.2 (by rw [hrec]) j s1 hs1
                refine ⟨s', by rw [← hfst]; exact hs', ?_, ?_⟩
                · rw [hx', hx1]
                · rw [hy', hy1]

lemma initState_sheep_alive (positions : List (ℝ × ℝ)) :
    ∀ s ∈ (initState positions).sheep_list, s.is_alive = true := by
  intro s hs
  simp only [initState, List.mem_map] at hs
  obtain ⟨p, -, rfl⟩ := hs
  rfl

lemma initState_inv (positions : List (ℝ × ℝ)) : Inv (initState positions) := by
  rw [Inv]
  have hcount : aliveCount (initState positions).sheep_list
      = (initState positions).sheep_list.length := by
    rw [aliveCount, List.filter_eq_self.mpr]
    intro s hs
    simp [initState_sheep_alive positions s hs]
  rw [hcount]
  simp [initState]

attribute [ext] Wolf Sheep SimState

lemma exists_alive_iff (l : List Sheep) :
    (∃ s ∈ l, s.is_alive = true) ↔ aliveCount l ≠ 0 := by
  rw [Ne, aliveCount_eq_zero_iff]
  constructor
  · rintro ⟨s, hs, hal⟩ hall
    rw [hall s hs] at hal
    simp at hal
  · intro h
    by_contra hno
    apply h
    intro s hs
    by_contra hdead
    apply hno
    exact ⟨s, hs, by simpa using hdead⟩

/-- Constant direction stream (a concrete sequence of random draws). -/
def northDirs : ℕ → Direction := fun _ => Direction.north

/-- Constant per-round direction streams. -/
def northDirs2 : ℕ → ℕ → Direction := fun _ _ => Direction.north

/-- Wolf at the origin, one live sheep at `(5, 0)`, counter 1. -/
noncomputable def pursuitState : SimState :=
  ⟨⟨0, 0⟩, [⟨5, 0, true⟩], 1⟩

/-- Wolf at the origin, one live sheep also at `(0, 0)`, counter 1. -/
noncomputable def captureState : SimState :=
  ⟨⟨0, 0⟩, [⟨0, 0, true⟩], 1⟩

lemma closest_sheep_singleton (w : Wolf) (s : Sheep) (h : s.is_alive = true) :
    closest_sheep w [s] = some (euclidean_distance w.x w.y s.x s.y, 0, s) := by
  rw [closest_sheep, closestGo_cons_pos]
  · rw [closestGo_nil]
  · refine ⟨?_, h⟩
    intro p hp
    simp at hp

lemma atan2_zero_pos (x : ℝ) (hx : 0 ≤ x) : atan2 0 x = 0 := by
  rw [atan2]
  have hz : (⟨x, 0⟩ : ℂ) = ((x : ℝ) : ℂ) := by
    apply Complex.ext <;> simp
  rw [hz]
  exact Complex.arg_ofReal_of_nonneg hx

lemma eval_dist_00_50 : euclidean_distance 0 0 5 0 = 5 := by
  rw [euclidean_distance, show ((0:ℝ) - 5) ^ 2 + ((0:ℝ) - 0) ^ 2 = 5 ^ 2 by norm_num]
  exact Real.sqrt_sq (by norm_num)

lemma eval_dist_10_50 : euclidean_distance 1 0 5 0 = 4 := by
  rw [euclidean_distance, show ((1:ℝ) - 5) ^ 2 + ((0:ℝ) - 0) ^ 2 = 4 ^ 2 by norm_num]
  exact Real.sqrt_sq (by norm_num)

lemma eval_dist_00_00 : euclidean_distance 0 0 0 0 = 0 :=
  (euclidean_distance_eq_zero_iff 0 0 0 0).mpr ⟨rfl, rfl⟩

lemma move_towards_east : (Wolf.mk 0 0).move_towards 5 0 1 = ⟨1, 0⟩ := by
  have hang : atan2 ((0:ℝ) - (Wolf.mk 0 0).y) ((5:ℝ) - (Wolf.mk 0 0).x) = 0 := by
    have h1 : ((0:ℝ) - (Wolf.mk 0 0).y) = 0 := by norm_num
    have h2 : ((5:ℝ) - (Wolf.mk 0 0).x) = 5 := by norm_num
    rw [h1, h2]
    exact atan2_zero_pos 5 (by norm_num)
  ext
  · rw [move_towards_x, hang, Real.cos_zero]
    norm_num
  · rw [move_towards_y, hang, Real.sin_zero]
    norm_num

lemma pursuitRound_eval :
    runRound 0 1 northDirs pursuitState = some ⟨⟨1, 0⟩, [⟨5, 0, true⟩], 1⟩ := by
  have hmv : moveSheep 0 northDirs pursuitState.sheep_list = [⟨5, 0, true⟩] :=
    moveSheepGo_zero_dist northDirs _ 0
  have hsel : closest_sheep pursuitState.wolf (moveSheep 0 northDirs pursuitState.sheep_list)
      = some (euclidean_distance 0 0 5 0, 0, ⟨5, 0, true⟩) := by
    rw [hmv]
    exact closest_sheep_singleton ⟨0, 0⟩ ⟨5, 0, true⟩ rfl
  have hncap : ¬ euclidean_distance pursuitState.wolf.x pursuitState.wolf.y
      (Sheep.mk 5 0 true).x (Sheep.mk 5 0 true).y ≤ (1:ℝ) := by
    show ¬ euclidean_distance 0 0 5 0 ≤ (1:ℝ)
    rw [eval_dist_00_50]
    norm_num
  rw [runRound_pursue 0 1 northDirs pursuitState _ 0 ⟨5, 0, true⟩ hsel hncap]
  rw [hmv]
  have hwolf : pursuitState.wolf.move_towards (Sheep.mk 5 0 true).x (Sheep.mk 5 0 true).y 1
      = ⟨1, 0⟩ := move_towards_east
  rw [hwolf]
  rfl

lemma captureRound_eval :
    runRound 0 1 northDirs captureState = some ⟨⟨0, 0⟩, [⟨0, 0, false⟩], 0⟩ := by
  have hmv : moveSheep 0 northDirs captureState.sheep_list = [⟨0, 0, true⟩] :=
    moveSheepGo_zero_dist northDirs _ 0
  have hsel : closest_sheep captureState.wolf (moveSheep 0 northDirs captureState.sheep_list)
      = some (euclidean_distance 0 0 0 0, 0, ⟨0, 0, true⟩) := by
    rw [hmv]
    exact closest_sheep_singleton ⟨0, 0⟩ ⟨0, 0, true⟩ rfl
  have hcap : euclidean_distance captureState.wolf.x captureState.wolf.y
      (Sheep.mk 0 0 true).x (Sheep.mk 0 0 true).y ≤ (1:ℝ) := by
    show euclidean_distance 0 0 0 0 ≤ (1:ℝ)
    rw [eval_dist_00_00]
    norm_num
  rw [runRound_capture 0 1 northDirs captureState _ 0 ⟨0, 0, true⟩ hsel hcap]
  rw [hmv]
  refine congrArg some ?_
  ext : 1
  · rfl
  · rfl
  · show (1:ℤ) - 1 = 0
    norm_num

lemma initState_single_eval : initState [((0:ℝ), (0:ℝ))] = captureState := by
  ext : 1
  · rfl
  · rfl
  · show ((List.length [((0:ℝ), (0:ℝ))] : ℕ) : ℤ) = 1
    norm_num

lemma captureRun_eval :
    runRounds 0 1 northDirs2 1 (initState [((0:ℝ), (0:ℝ))]) =
      some (⟨⟨0, 0⟩, [⟨0, 0, false⟩], 0⟩, 1, false) := by
  rw [initState_single_eval]
  have h0 : ¬ captureState.num_alive_sheep = 0 := by
    show ¬ (1:ℤ) = 0
    norm_num
  have hr : runRound 0 1 (northDirs2 0) captureState = some ⟨⟨0, 0⟩, [⟨0, 0, false⟩], 0⟩ :=
    captureRound_eval
  rw [runRounds_succ_run 0 1 northDirs2 0 captureState _ h0 hr, runRounds_zero]
  rfl

/-- Claim C2: for every pursuer position and every population, the
nearest-neighbor selector returns `none` iff no sheep is alive;
otherwise it returns (with its distance and index) a live sheep whose
distance to the wolf is minimal among all live sheep, and when several
live sheep attain the minimum it returns the one with the lowest
population index (strict-less-than comparison). -/
theorem closest_sheep_selection_spec (w : Wolf) (l : List Sheep) :
    (closest_sheep w l = none ↔ ∀ s ∈ l, s.is_alive = false) ∧
    (∀ d i c, closest_sheep w l = some (d, i, c) →
      d = euclidean_distance w.x w.y c.x c.y ∧ c.is_alive = true ∧ l.get? i = some c ∧
      (∀ k s, l.get? k = some s → s.is_alive = true →
        euclidean_distance w.x w.y c.x c.y ≤ euclidean_distance w.x w.y s.x s.y) ∧
      (∀ k s, l.get? k = some s → s.is_alive = true → k < i →
        euclidean_distance w.x w.y c.x c.y < euclidean_distance w.x w.y s.x s.y)) := by
  refine ⟨closest_sheep_none_iff w l, ?_⟩
  intro d i c h
  obtain ⟨hd, hal, hget, hmin⟩ := closest_sheep_some_spec w l d i c h
  refine ⟨hd, hal, hget, ?_, ?_⟩
  · intro k s hk hs
    have hle := (hmin k s hk hs).2
    rwa [hd] at hle
  · intro k s hk hs hki
    have hlt := (hmin k s hk hs).1 hki
    rwa [hd] at hlt

/-- Witness for C2: on a concrete singleton population the selector
returns the live sheep at index 0. -/
theorem closest_sheep_selection_spec_witness :
    (Sheep.mk 5 0 true).is_alive = true ∧
      [Sheep.mk 5 0 true].get? 0 = some (Sheep.mk 5 0 true) := by
  have h := (closest_sheep_selection_spec (Wolf.mk 0 0) [Sheep.mk 5 0 true]).2 _ 0 _
    (closest_sheep_singleton (Wolf.mk 0 0) (Sheep.mk 5 0 true) rfl)
  exact ⟨h.2.1, h.2.2.1⟩

/-- Claim C10: when the pursuer's position equals the target point, the
pursuit move is still defined and deterministic: atan2 of the zero
vector is 0, so the wolf advances by exactly `step` in the positive-x
direction with `y` unchanged (the total function raises no exception). -/
theorem move_towards_coincident_target (w : Wolf) (step : ℝ) :
    atan2 0 0 = 0 ∧ w.move_towards w.x w.y step = ⟨w.x + step, w.y⟩ := by
  refine ⟨atan2_zero_zero, ?_⟩
  have hang : atan2 (w.y - w.y) (w.x - w.x) = 0 := by
    rw [sub_self, sub_self]
    exact atan2_zero_zero
  ext
  · rw [move_towards_x, hang, Real.cos_zero, mul_one]
  · rw [move_towards_y, hang, Real.sin_zero, mul_zero, add_zero]

/-- Claim C9: across one successful round the wolf's displacement is at
most the configured wolf step distance: a capture teleports it over the
capture distance (which is at most the step), and a pursuit moves it by
exactly the step. -/
theorem wolf_displacement_bounded (ms mw : ℝ) (dirs : ℕ → Direction) (st st' : SimState)
    (hmw : 0 ≤ mw) (h : runRound ms mw dirs st = some st') :
    euclidean_distance st.wolf.x st.wolf.y st'.wolf.x st'.wolf.y ≤ mw := by
  obtain ⟨d, i, c, hsel, hcases⟩ := runRound_inversion ms mw dirs st st' h
  rcases hcases with ⟨hcap, rfl⟩ | ⟨hncap, rfl⟩
  · exact hcap
  · show euclidean_distance st.wolf.x st.wolf.y
      (st.wolf.move_towards c.x c.y mw).x (st.wolf.move_towards c.x c.y mw).y ≤ mw
    rw [move_towards_displacement st.wolf c.x c.y mw hmw]

/-- Witness for C9: in the concrete pursuit round the wolf moves from
the origin to `(1, 0)`, a displacement of at most 1. -/
theorem wolf_displacement_bounded_witness :
    0 ≤ (1:ℝ) ∧ euclidean_distance pursuitState.wolf.x pursuitState.wolf.y
      (SimState.mk ⟨1, 0⟩ [⟨5, 0, true⟩] 1).wolf.x
      (SimState.mk ⟨1, 0⟩ [⟨5, 0, true⟩] 1).wolf.y ≤ 1 :=
  ⟨by norm_num,
    wolf_displacement_bounded 0 1 northDirs pursuitState _ (by norm_num) pursuitRound_eval⟩

/-- Claim C6 (counterexample): in a concrete pursuit round (wolf at the
origin, live sheep at `(5, 0)`, wolf step 1, no capture since the
distance is 5, wolf not on the target), the new distance from the wolf
to the target is 4, not the step distance 1 as claimed. -/
theorem pursuit_distance_cex :
    runRound 0 1 northDirs pursuitState = some ⟨⟨1, 0⟩, [⟨5, 0, true⟩], 1⟩ ∧
    ¬ euclidean_distance pursuitState.wolf.x pursuitState.wolf.y 5 0 ≤ 1 ∧
    ¬ (pursuitState.wolf.x = 5 ∧ pursuitState.wolf.y = 0) ∧
    euclidean_distance (SimState.mk ⟨1, 0⟩ [⟨5, 0, true⟩] 1).wolf.x
      (SimState.mk ⟨1, 0⟩ [⟨5, 0, true⟩] 1).wolf.y 5 0 ≠ 1 := by
  refine ⟨pursuitRound_eval, ?_, ?_, ?_⟩
  · show ¬ euclidean_distance 0 0 5 0 ≤ 1
    rw [eval_dist_00_50]
    norm_num
  · rintro ⟨hx, -⟩
    have h5 : (0:ℝ) = 5 := hx
    norm_num at h5
  · show euclidean_distance 1 0 5 0 ≠ 1
    rw [eval_dist_10_50]
    norm_num

/-- Claim C6 (amended): on a pursuit round (no capture), with a
nonnegative wolf step, the new distance from the wolf to the selected
sheep's now-fixed position equals the old distance minus the step
distance — not the step distance itself. -/
theorem pursuit_distance_decreases_by_step (ms mw : ℝ) (dirs : ℕ → Direction)
    (st st' : SimState) (d : ℝ) (i : ℕ) (c : Sheep) (hmw : 0 ≤ mw)
    (hsel : closest_sheep st.wolf (moveSheep ms dirs st.sheep_list) = some (d, i, c))
    (hnocap : ¬ euclidean_distance st.wolf.x st.wolf.y c.x c.y ≤ mw)
    (h : runRound ms mw dirs st = some st') :
    euclidean_distance st'.wolf.x st'.wolf.y c.x c.y =
      euclidean_distance st.wolf.x st.wolf.y c.x c.y - mw := by
  have hst' := runRound_pursue ms mw dirs st d i c hsel hnocap
  rw [h] at hst'
  injection hst' with hst'
  subst hst'
  have hgt : mw < euclidean_distance st.wolf.x st.wolf.y c.x c.y := not_le.mp hnocap
  have hpos : 0 < euclidean_distance st.wolf.x st.wolf.y c.x c.y := lt_of_le_of_lt hmw hgt
  have hne : euclidean_distance st.wolf.x st.wolf.y c.x c.y ≠ 0 := ne_of_gt hpos
  show euclidean_distance (st.wolf.move_towards c.x c.y mw).x
    (st.wolf.move_towards c.x c.y mw).y c.x c.y =
    euclidean_distance st.wolf.x st.wolf.y c.x c.y - mw
  rw [move_towards_dist_to_target st.wolf c.x c.y mw hne]
  exact abs_of_nonneg (by linarith)

/-- Witness for the amended C6: in the concrete pursuit round the
distance to the target drops from 5 to 5 - 1. -/
theorem pursuit_distance_decreases_by_step_witness :
    0 ≤ (1:ℝ) ∧
    euclidean_distance (SimState.mk ⟨1, 0⟩ [⟨5, 0, true⟩] 1).wolf.x
        (SimState.mk ⟨1, 0⟩ [⟨5, 0, true⟩] 1).wolf.y (Sheep.mk 5 0 true).x (Sheep.mk 5 0 true).y
      = euclidean_distance pursuitState.wolf.x pursuitState.wolf.y
          (Sheep.mk 5 0 true).x (Sheep.mk 5 0 true).y - 1 := by
  refine ⟨by norm_num, ?_⟩
  have hmv : moveSheep 0 northDirs pursuitState.sheep_list = [⟨5, 0, true⟩] :=
    moveSheepGo_zero_dist northDirs _ 0
  have hsel : closest_sheep pursuitState.wolf (moveSheep 0 northDirs pursuitState.sheep_list)
      = some (euclidean_distance 0 0 5 0, 0, ⟨5, 0, true⟩) := by
    rw [hmv]
    exact closest_sheep_singleton ⟨0, 0⟩ ⟨5, 0, true⟩ rfl
  have hnocap : ¬ euclidean_distance pursuitState.wolf.x pursuitState.wolf.y
      (Sheep.mk 5 0 true).x (Sheep.mk 5 0 true).y ≤ (1:ℝ) := by
    show ¬ euclidean_distance 0 0 5 0 ≤ (1:ℝ)
    rw [eval_dist_00_50]
    norm_num
  exact pursuit_distance_decreases_by_step 0 1 northDirs pursuitState _ _ 0 _
    (by norm_num) hsel hnocap pursuitRound_eval

/-- Claim C1: in every round in which at least one sheep is alive, a
capture occurs iff the distance from the wolf to the selected nearest
live sheep — evaluated after the sheep have moved and before the wolf
moves — is at most the wolf step distance; a capture sets that sheep's
liveness flag to false, sets the wolf's position to exactly the captured
sheep's position, and decrements the counter by exactly one; otherwise
the counter is unchanged and the selected sheep stays alive. -/
theorem capture_iff_within_step (ms mw : ℝ) (dirs : ℕ → Direction) (st : SimState)
    (halive : ∃ s ∈ st.sheep_list, s.is_alive = true) :
    ∃ d i c st',
      closest_sheep st.wolf (moveSheep ms dirs st.sheep_list) = some (d, i, c) ∧
      runRound ms mw dirs st = some st' ∧
      (euclidean_distance st.wolf.x st.wolf.y c.x c.y ≤ mw ↔
        st'.num_alive_sheep = st.num_alive_sheep - 1) ∧
      (euclidean_distance st.wolf.x st.wolf.y c.x c.y ≤ mw →
        st'.sheep_list.get? i = some { c with is_alive := false } ∧
        st'.wolf.x = c.x ∧ st'.wolf.y = c.y) ∧
      (¬ euclidean_distance st.wolf.x st.wolf.y c.x c.y ≤ mw →
        st'.num_alive_sheep = st.num_alive_sheep ∧
        st'.sheep_list.get? i = some c ∧ c.is_alive = true) := by
  have halive' : aliveCount st.sheep_list ≠ 0 := (exists_alive_iff _).mp halive
  obtain ⟨d, i, c, hsel⟩ := exists_selection ms dirs st halive'
  obtain ⟨-, hal, hget, -⟩ := closest_sheep_some_spec _ _ _ _ _ hsel
  have hlen : i < (moveSheep ms dirs st.sheep_list).length :=
    (List.get?_eq_some.mp hget).choose
  by_cases hcap : euclidean_distance st.wolf.x st.wolf.y c.x c.y ≤ mw
  · refine ⟨d, i, c, _, hsel, runRound_capture ms mw dirs st d i c hsel hcap, ?_, ?_, ?_⟩
    · exact ⟨fun _ => rfl, fun _ => hcap⟩
    · intro _
      refine ⟨?_, rfl, rfl⟩
      show ((moveSheep ms dirs st.sheep_list).set i { c with is_alive := false }).get? i = _
      rw [List.get?_set_eq_of_lt _ hlen]
    · intro hncap
      exact absurd hcap hncap
  · refine ⟨d, i, c, _, hsel, runRound_pursue ms mw dirs st d i c hsel hcap, ?_, ?_, ?_⟩
    · constructor
      · intro hc
        exact absurd hc hcap
      · intro heq
        exfalso
        have hsame : st.num_alive_sheep = st.num_alive_sheep - 1 := heq
        omega
    · intro hc
      exact absurd hc hcap
    · intro _
      exact ⟨rfl, hget, hal⟩

/-- Witness for C1, at a concrete capture round. -/
theorem capture_iff_within_step_witness :
    (∃ s ∈ captureState.sheep_list, s.is_alive = true) ∧
    (∃ d i c st',
      closest_sheep captureState.wolf (moveSheep 0 northDirs captureState.sheep_list)
        = some (d, i, c) ∧
      runRound 0 1 northDirs captureState = some st' ∧
      (euclidean_distance captureState.wolf.x captureState.wolf.y c.x c.y ≤ 1 ↔
        st'.num_alive_sheep = captureState.num_alive_sheep - 1) ∧
      (euclidean_distance captureState.wolf.x captureState.wolf.y c.x c.y ≤ 1 →
        st'.sheep_list.get? i = some { c with is_alive := false } ∧
        st'.wolf.x = c.x ∧ st'.wolf.y = c.y) ∧
      (¬ euclidean_distance captureState.wolf.x captureState.wolf.y c.x c.y ≤ 1 →
        st'.num_alive_sheep = captureState.num_alive_sheep ∧
        st'.sheep_list.get? i = some c ∧ c.is_alive = true)) :=
  have hex : ∃ s ∈ captureState.sheep_list, s.is_alive = true :=
    ⟨⟨0, 0, true⟩, List.mem_singleton_self _, rfl⟩
  ⟨hex, capture_iff_within_step 0 1 northDirs captureState hex⟩

/-- Claim C4: initially the counter equals the number of live sheep, and
every successful round preserves that equality; across one round the
counter drops by exactly one when the capture condition holds and is
unchanged otherwise. -/
theorem live_count_invariant (ms mw : ℝ) (dirs : ℕ → Direction)
    (positions : List (ℝ × ℝ)) (st st' : SimState) :
    Inv (initState positions) ∧
    (Inv st → runRound ms mw dirs st = some st' →
      Inv st' ∧
      (∀ d i c, closest_sheep st.wolf (moveSheep ms dirs st.sheep_list) = some (d, i, c) →
        (euclidean_distance st.wolf.x st.wolf.y c.x c.y ≤ mw →
          st'.num_alive_sheep = st.num_alive_sheep - 1) ∧
        (¬ euclidean_distance st.wolf.x st.wolf.y c.x c.y ≤ mw →
          st'.num_alive_sheep = st.num_alive_sheep))) := by
  refine ⟨initState_inv positions, ?_⟩
  intro hinv h
  refine ⟨(runRound_inv ms mw dirs st st' hinv h).1, ?_⟩
  intro d i c hsel
  constructor
  · intro hcap
    have hrc := runRound_capture ms mw dirs st d i c hsel hcap
    rw [h] at hrc
    injection hrc with hrc
    rw [hrc]
  · intro hncap
    have hrp := runRound_pursue ms mw dirs st d i c hsel hncap
    rw [h] at hrp
    injection hrp with hrp
    rw [hrp]

/-- Witness for C4: the invariant holds in the concrete capture state
and is preserved by the concrete capture round. -/
theorem live_count_invariant_witness :
    Inv captureState ∧ Inv (SimState.mk ⟨0, 0⟩ [⟨0, 0, false⟩] 0) := by
  have hinv : Inv captureState := by
    rw [Inv]
    rfl
  refine ⟨hinv, ?_⟩
  exact ((live_count_invariant 0 1 northDirs [] captureState
    ⟨⟨0, 0⟩, [⟨0, 0, false⟩], 0⟩).2 hinv captureRound_eval).1

/-- Claim C5: the selector returns `none` exactly when no sheep is
alive; under the driver invariant that coincides with the
`num_alive_sheep == 0` termination condition, on which the driver
breaks without invoking the round body (so no distance computation,
capture or pursuit touches an absent sheep); whenever the body does run
the selection is `some`, so a `none` result is never dereferenced. -/
theorem none_selection_safe (ms mw : ℝ) (dirs2 : ℕ → ℕ → Direction) (dirs : ℕ → Direction)
    (st : SimState) (n : ℕ) (hinv : Inv st) :
    (st.num_alive_sheep = 0 →
      closest_sheep st.wolf (moveSheep ms dirs st.sheep_list) = none ∧
      runRounds ms mw dirs2 (n + 1) st = some (st, 0, true)) ∧
    (st.num_alive_sheep ≠ 0 →
      (∃ d i c, closest_sheep st.wolf (moveSheep ms dirs st.sheep_list) = some (d, i, c)) ∧
      (∃ st', runRound ms mw dirs st = some st')) := by
  constructor
  · intro h0
    have hcount : aliveCount st.sheep_list = 0 := by
      rw [hinv] at h0
      exact_mod_cast h0
    constructor
    · rw [closest_sheep_none_iff]
      intro s hs
      have hmv : aliveCount (moveSheep ms dirs st.sheep_list) = 0 := by
        rw [aliveCount_moveSheep]
        exact hcount
      exact (aliveCount_eq_zero_iff _).mp hmv s hs
    · exact runRounds_succ_break ms mw dirs2 n st h0
  · intro h0
    have halive : aliveCount st.sheep_list ≠ 0 := by
      intro hc
      apply h0
      rw [hinv, hc]
      rfl
    exact ⟨exists_selection ms dirs st halive, runRound_isSome_of_alive ms mw dirs st halive⟩

/-- The all-dead state used by witnesses: one dead sheep, counter 0. -/
noncomputable def extinctState : SimState :=
  ⟨⟨0, 0⟩, [⟨0, 0, false⟩], 0⟩

/-- Witness for C5: in the concrete extinct state the selector returns
`none` and the driver breaks without running a round. -/
theorem none_selection_safe_witness :
    Inv extinctState ∧
    closest_sheep extinctState.wolf (moveSheep 0 northDirs extinctState.sheep_list) = none ∧
    runRounds 0 1 northDirs2 1 extinctState = some (extinctState, 0, true) := by
  have hinv : Inv extinctState := by
    rw [Inv]
    rfl
  exact ⟨hinv, (none_selection_safe 0 1 northDirs2 northDirs extinctState 0 hinv).1 rfl⟩

/-- Claim C3 (counterexample): with round limit 1, one sheep captured in
round 1, the live count reaches 0 yet the loop does not terminate early:
it completes exactly the round limit of rounds and the break never
fires, refuting the claimed "terminates early iff the live count
reaches 0" biconditional at this input. -/
theorem termination_early_iff_extinction_cex :
    runRounds 0 1 northDirs2 1 (initState [((0:ℝ), (0:ℝ))]) =
      some (⟨⟨0, 0⟩, [⟨0, 0, false⟩], 0⟩, 1, false) ∧
    ¬ (((false : Bool) = true) ↔
        (SimState.mk ⟨0, 0⟩ [⟨0, 0, false⟩] 0).num_alive_sheep = 0) := by
  refine ⟨captureRun_eval, ?_⟩
  intro hiff
  have hft : (false : Bool) = true := hiff.mpr rfl
  simp at hft

/-- Claim C3 (amended): for every configuration and every sequence of
direction draws the loop, started from a fresh initial state, runs to a
result: at most `max_rounds` rounds complete (the loop takes at most
`max_rounds + 1` iterations and the final round counter never exceeds
the limit); the loop exits through the break iff strictly fewer than
`max_rounds` rounds complete, and in that case the live count is 0. -/
theorem loop_termination_bounds (ms mw : ℝ) (dirs2 : ℕ → ℕ → Direction)
    (positions : List (ℝ × ℝ)) (max_rounds : ℕ)
    (hmr : 0 < max_rounds) (hpop : 0 < positions.length) :
    ∃ fst k e, runRounds ms mw dirs2 max_rounds (initState positions) = some (fst, k, e) ∧
      k ≤ max_rounds ∧ (e = true → fst.num_alive_sheep = 0 ∧ k < max_rounds) ∧
      (k < max_rounds → e = true) := by
  obtain ⟨fst, k, e, heq, -, hk, he0, hke, hek⟩ :=
    runRounds_spec ms mw max_rounds dirs2 (initState positions) (initState_inv positions)
  exact ⟨fst, k, e, heq, hk, fun h => ⟨he0 h, hek h⟩, hke⟩

/-- Witness for the amended C3 at a concrete one-round configuration. -/
theorem loop_termination_bounds_witness :
    0 < 1 ∧ 0 < List.length [((0:ℝ), (0:ℝ))] ∧
    (∃ fst k e, runRounds 0 1 northDirs2 1 (initState [((0:ℝ), (0:ℝ))]) = some (fst, k, e) ∧
      k ≤ 1 ∧ (e = true → fst.num_alive_sheep = 0 ∧ k < 1) ∧ (k < 1 → e = true)) :=
  ⟨by norm_num, by norm_num,
    loop_termination_bounds 0 1 northDirs2 [((0:ℝ), (0:ℝ))] 1 (by norm_num) (by norm_num)⟩

/-- Claim C7: liveness is monotonic: every sheep is created alive, and a
sheep that is dead (at its index) stays dead through the rest of any
run; the flag is never reset to true. -/
theorem liveness_monotonic (ms mw : ℝ) (dirs2 : ℕ → ℕ → Direction)
    (positions : List (ℝ × ℝ)) (fuel : ℕ) (st fst : SimState) (k : ℕ) (e : Bool) :
    (∀ s ∈ (initState positions).sheep_list, s.is_alive = true) ∧
    (runRounds ms mw dirs2 fuel st = some (fst, k, e) →
      ∀ j s, st.sheep_list.get? j = some s → s.is_alive = false →
        ∃ s', fst.sheep_list.get? j = some s' ∧ s'.is_alive = false) :=
  ⟨initState_sheep_alive positions,
    fun h j s hj hdead => runRounds_dead_stays ms mw fuel dirs2 st fst k e h j s hj hdead⟩

/-- Witness for C7: the dead sheep of the extinct state is still dead
after a run. -/
theorem liveness_monotonic_witness :
    runRounds 0 1 northDirs2 1 extinctState = some (extinctState, 0, true) ∧
    (∃ s', extinctState.sheep_list.get? 0 = some s' ∧ s'.is_alive = false) := by
  have hrun : runRounds 0 1 northDirs2 1 extinctState = some (extinctState, 0, true) :=
    runRounds_succ_break 0 1 northDirs2 0 extinctState rfl
  exact ⟨hrun, (liveness_monotonic 0 1 northDirs2 [] 1 extinctState extinctState 0 true).2
    hrun 0 ⟨0, 0, false⟩ rfl rfl⟩

/-- Claim C8: with prey step distance 0, a random move leaves the sheep
position unchanged while a direction is still chosen and returned, and
hence across a whole run no sheep position ever changes. -/
theorem zero_step_prey_static (s : Sheep) (dir : Direction) (mw : ℝ)
    (dirs2 : ℕ → ℕ → Direction) (fuel : ℕ) (st fst : SimState) (k : ℕ) (e : Bool) :
    ((s.move_randomly dir 0).1.x = s.x ∧ (s.move_randomly dir 0).1.y = s.y ∧
      (s.move_randomly dir 0).2 = dir) ∧
    (runRounds 0 mw dirs2 fuel st = some (fst, k, e) →
      ∀ j t, st.sheep_list.get? j = some t →
        ∃ t', fst.sheep_list.get? j = some t' ∧ t'.x = t.x ∧ t'.y = t.y) := by
  constructor
  · refine ⟨?_, ?_, move_randomly_snd s dir 0⟩
    · rw [move_randomly_zero]
    · rw [move_randomly_zero]
  · intro h j t hj
    exact runRounds_zero_dist_positions mw fuel dirs2 st fst k e h j t hj

lemma pursuitRun_eval :
    runRounds 0 1 northDirs2 1 pursuitState =
      some (⟨⟨1, 0⟩, [⟨5, 0, true⟩], 1⟩, 1, false) := by
  have h0 : ¬ pursuitState.num_alive_sheep = 0 := by
    show ¬ (1:ℤ) = 0
    norm_num
  rw [runRounds_succ_run 0 1 northDirs2 0 pursuitState _ h0 pursuitRound_eval,
    runRounds_zero]
  rfl

/-- Witness for C8: in the concrete pursuit run with prey step 0 the
sheep is still at `(5, 0)` afterwards. -/
theorem zero_step_prey_static_witness :
    runRounds 0 1 northDirs2 1 pursuitState = some (⟨⟨1, 0⟩, [⟨5, 0, true⟩], 1⟩, 1, false) ∧
    (∃ t', (SimState.mk ⟨1, 0⟩ [⟨5, 0, true⟩] 1).sheep_list.get? 0 = some t' ∧
      t'.x = (Sheep.mk 5 0 true).x ∧ t'.y = (Sheep.mk 5 0 true).y) :=
  ⟨pursuitRun_eval,
    (zero_step_prey_static ⟨5, 0, true⟩ Direction.north 1 northDirs2 1 pursuitState
      ⟨⟨1, 0⟩, [⟨5, 0, true⟩], 1⟩ 1 false).2 pursuitRun_eval 0 ⟨5, 0, true⟩ rfl⟩

end WolfSheep
